import Mathlib

/-!
Shallow embedding of the CRM GraphQL backend (crm/models.py, crm/schema.py).

Conventions of the embedding:
* Database rows are Lean structures; the relational store is a `Store` record of
  row lists.  UUID primary keys are modelled as abstract `Nat` keys; a fresh key
  is drawn from the `nextId` counter (uuid4 freshness).
* `DecimalField(max_digits=10, decimal_places=2)` money values are modelled as
  exact integer counts of cents (`Int`), so 10.00 is `1000`; this is exact
  decimal arithmetic.
* A raised exception is modelled with `Except` (single mutations raise before
  any write) and, for `CreateOrder`, with an explicit `transaction.atomic`
  wrapper that restores the initial store on any error.
* Error message strings of the source are modelled by structured error
  constructors; each constructor documents the exact source message.
* Character classes of Python regexes are modelled over ASCII.
-/

/-- A GraphQL `ID` argument as it reaches a resolver.  Django parses the string
as a UUID before the SQL lookup: `valid n` models a string that parses to the
UUID abstractly keyed by `n`; `malformed s` models a string that fails UUID
parsing, for which Django raises `ValidationError` when it is used in a
queryset lookup. -/
inductive RawId where
  | valid (n : Nat)
  | malformed (s : String)
deriving DecidableEq

/-- Whether a raw id fails UUID parsing. -/
def RawId.isMalformed : RawId → Bool
  | .malformed _ => true
  | .valid _ => false

/-- Row of `crm.models.Customer`: uuid pk, name, unique email, optional phone.
(`created_at` is a server timestamp with no logic attached; it is omitted.) -/
structure Customer where
  id : Nat
  name : String
  email : String
  phone : Option String
deriving DecidableEq

/-- Row of `crm.models.Product`: uuid pk, name, price (cents), stock. -/
structure Product where
  id : Nat
  name : String
  price : Int
  stock : Int
deriving DecidableEq

/-- Row of `crm.models.Order` together with its many-to-many product links:
`productIds` models the rows of the order-product association table for this
order (`order.products.set(products)`), `totalAmount` is in cents. -/
structure Order where
  id : Nat
  customerId : Nat
  productIds : List Nat
  totalAmount : Int
deriving DecidableEq

/-- The relational store: the three tables plus a fresh-key counter. -/
structure Store where
  customers : List Customer
  products : List Product
  orders : List Order
  nextId : Nat
deriving DecidableEq

/-- The emails currently present in the customer table. -/
def Store.emails (s : Store) : List String := s.customers.map (·.email)

/-- `CustomerInput {name, email, phone?}` of crm/schema.py. -/
structure CustomerInput where
  name : String
  email : String
  phone : Option String
deriving DecidableEq

/-- `ProductInput {name, price, stock?}` of crm/schema.py (price in cents). -/
structure ProductInput where
  name : String
  price : Int
  stock : Option Int
deriving DecidableEq

/-- `OrderInput {customer_id, product_ids}` of crm/schema.py. -/
structure OrderInput where
  customer_id : RawId
  product_ids : List RawId
deriving DecidableEq

/-- ASCII members of the Python regex class `\s`: space, tab, LF, VT, FF, CR. -/
def isPySpace (c : Char) : Bool :=
  c = ' ' || c = '\t' || c = '\n' || c = '\r' || c = '\x0b' || c = '\x0c'

/-- ASCII members of the class `[\d\s-]` of validate_phone_format. -/
def isPhoneClassChar (c : Char) : Bool :=
  c.isDigit || isPySpace c || c = '-'

/-- The action of the leading `\+?` of the pattern: a leading `'+'` character
is consumed when present (the `'+'` is not in `[\d\s-]`, so the match is
forced), anything else is left in place. -/
def stripPlus : List Char → List Char
  | [] => []
  | c :: rest => if c = '+' then rest else c :: rest

/-- `re.match(r'^\+?[\d\s-]{7,20}$', s)` of validate_phone_format, over ASCII:
after the optional `'+'`, either the whole remainder is 7 to 20 class
characters, or — because Python `$` also matches just before one newline at
the end of the string — everything but a final `'\n'` is 7 to 20 class
characters. -/
def phone_regex_match (s : String) : Bool :=
  let body := stripPlus s.data
  (decide (7 ≤ body.length) && decide (body.length ≤ 20) && body.all isPhoneClassChar)
    || (decide (body.getLast? = some '\n') && decide (7 ≤ body.length - 1)
        && decide (body.length - 1 ≤ 20) && body.dropLast.all isPhoneClassChar)

/-- `validate_phone_format` of crm/schema.py: raises unless the phone is falsy
(empty) or matches the regex.  `true` means no exception is raised. -/
def validate_phone_format (phone : String) : Bool :=
  phone == "" || phone_regex_match phone

/-- Splitting a character list at every occurrence of a separator. -/
def splitChar (sep : Char) : List Char → List (List Char)
  | [] => [[]]
  | c :: rest =>
    let r := splitChar sep rest
    if c = sep then [] :: r
    else
      match r with
      | h :: t => (c :: h) :: t
      | [] => [[c]]

/-- Abstraction of `django.core.validators.validate_email` (framework code,
not part of this repository): exactly one `'@'`, a nonempty local part, and a
nonempty domain that contains a dot, does not start or end with a dot, with no
space anywhere.  The development depends only on the existence of valid and
invalid email strings, not on the exact grammar. -/
def validEmail (s : String) : Bool :=
  match splitChar '@' s.data with
  | [localPart, domain] =>
    !localPart.isEmpty && !domain.isEmpty && domain.contains '.'
      && decide (domain.head? ≠ some '.') && decide (domain.getLast? ≠ some '.')
      && !s.data.contains ' '
  | _ => false

/-- Structured model of the error strings built by `validate_customer_data`:
* `duplicateEmail e` is the source string `Email <e> already exists.`
* `invalidEmail e` is `Email <e> is not a valid email address.`
* `invalidPhone p` is `Phone validation failed for <p>: Invalid phone format. ...` -/
inductive VErr where
  | duplicateEmail (email : String)
  | invalidEmail (email : String)
  | invalidPhone (phone : String)
deriving DecidableEq

/-- `validate_customer_data` of crm/schema.py: duplicate-email check against
the store first, then email syntax, then (for a truthy phone) the phone
format; the first failing check is returned and the rest are skipped. -/
def validate_customer_data (s : Store) (data : CustomerInput) : Option VErr :=
  if s.customers.any (fun c => c.email == data.email) then
    some (.duplicateEmail data.email)
  else if !validEmail data.email then
    some (.invalidEmail data.email)
  else
    match data.phone with
    | some p => if !(p == "") && !validate_phone_format p then some (.invalidPhone p) else none
    | none => none

/-- `Customer.objects.create(...)`: append a row with a fresh key. -/
def createCustomerRow (s : Store) (data : CustomerInput) : Store × Customer :=
  let c : Customer := ⟨s.nextId, data.name, data.email, data.phone⟩
  ({ s with customers := s.customers ++ [c], nextId := s.nextId + 1 }, c)

/-- `CreateCustomer.mutate`: validate, raise the validation message on
failure, otherwise persist and return the row plus the confirmation
message. -/
def createCustomer (s : Store) (input : CustomerInput) :
    Except VErr (Store × Customer × String) :=
  match validate_customer_data s input with
  | some e => .error e
  | none =>
    let r := createCustomerRow s input
    .ok (r.1, r.2, "Customer created successfully.")

/-- One element of the `errors` list of `BulkCreateCustomers`: models the
string `json.dumps({'index': i, 'email': ..., 'error': ...})`. -/
structure ErrorEntry where
  index : Nat
  email : String
  error : VErr
deriving DecidableEq

/-- Result of `BulkCreateCustomers.mutate`: final store, created rows,
structured errors. -/
structure BulkResult where
  store : Store
  customers : List Customer
  errors : List ErrorEntry
deriving DecidableEq

/-- The loop body of `BulkCreateCustomers.mutate`, processing the inputs in
order starting at index `i`: a failing entry contributes an error record and
leaves the store alone; a passing entry is committed immediately, so later
duplicate checks see it.  (The `except` arm that converts an unexpected
persistence failure into an `Internal error` entry is unreachable here because
the modelled store cannot fail.) -/
def bulkGo (s : Store) (i : Nat) : List CustomerInput → BulkResult
  | [] => ⟨s, [], []⟩
  | data :: rest =>
    match validate_customer_data s data with
    | some e =>
      let r := bulkGo s (i + 1) rest
      ⟨r.store, r.customers, ⟨i, data.email, e⟩ :: r.errors⟩
    | none =>
      let sc := createCustomerRow s data
      let r := bulkGo sc.1 (i + 1) rest
      ⟨r.store, sc.2 :: r.customers, r.errors⟩

/-- `BulkCreateCustomers.mutate` of crm/schema.py. -/
def bulkCreateCustomers (s : Store) (input : List CustomerInput) : BulkResult :=
  bulkGo s 0 input

/-- Structured model of the exceptions raised by `CreateProduct.mutate`:
`invalidPrice` is `Price must be a positive number.`, `invalidStock` is
`Stock cannot be a negative number.` -/
inductive ProdErr where
  | invalidPrice
  | invalidStock
deriving DecidableEq

/-- `CreateProduct.mutate`: reject price ≤ 0, then a supplied negative stock;
otherwise persist with stock defaulting to 0.  (The `InvalidOperation` handler
of the source is unreachable in the model, where prices are exact.) -/
def createProduct (s : Store) (input : ProductInput) : Except ProdErr (Store × Product) :=
  if input.price ≤ 0 then .error .invalidPrice
  else if (match input.stock with | some k => decide (k < 0) | none => false) then
    .error .invalidStock
  else
    let p : Product := ⟨s.nextId, input.name, input.price, input.stock.getD 0⟩
    .ok ({ s with products := s.products ++ [p], nextId := s.nextId + 1 }, p)

/-- Outcome of `Customer.objects.get(id=raw)`: the row, or the
`Customer.DoesNotExist` exception, or the `ValidationError` Django raises when
the id string is not a parseable UUID. -/
inductive GetResult where
  | found (c : Customer)
  | doesNotExist
  | validationError
deriving DecidableEq

/-- `Customer.objects.get(id=raw)` of Django, specialised to this store. -/
def customersGet (s : Store) (raw : RawId) : GetResult :=
  match raw with
  | .malformed _ => .validationError
  | .valid n =>
    match s.customers.find? (fun c => c.id == n) with
    | some c => .found c
    | none => .doesNotExist

/-- `CRMQuery.resolve_customer`: only `Customer.DoesNotExist` is caught and
turned into `None`; the malformed-id `ValidationError` propagates to the
caller (modelled as `.error ()`). -/
def resolve_customer (s : Store) (id : RawId) : Except Unit (Option Customer) :=
  match customersGet s id with
  | .found c => .ok (some c)
  | .doesNotExist => .ok none
  | .validationError => .error ()

/-- The ordering used by `order_by('name')`. -/
def nameLe (a b : Customer) : Prop := a.name ≤ b.name

instance : DecidableRel nameLe :=
  fun a b => inferInstanceAs (Decidable (a.name ≤ b.name))

/-- `CRMQuery.resolve_all_customers`: `Customer.objects.all().order_by('name')`,
modelled as a stable sort of the table by name. -/
def resolve_all_customers (s : Store) : List Customer :=
  List.insertionSort nameLe s.customers

/-- Structured model of the exceptions raised by `CreateOrder.mutate`:
* `emptyProductList` is `Order must include at least one product ID.`
* `customerNotFound raw` is `Invalid customer ID: <raw> was not found.`
  (raised both for `Customer.DoesNotExist` and for the malformed-id
  `ValidationError`);
* `productsNotFound missing` is `One or more product IDs are invalid: <missing>`;
* `invalidProductId` is the uncaught `ValidationError` raised when
  `filter(id__in=...)` is evaluated on a list containing a malformed UUID. -/
inductive OrderErr where
  | emptyProductList
  | customerNotFound (raw : RawId)
  | productsNotFound (missing : List Nat)
  | invalidProductId
deriving DecidableEq

/-- The parseable keys among a deduplicated id list. -/
def validKeys (l : List RawId) : List Nat :=
  l.filterMap (fun r => match r with | .valid n => some n | .malformed _ => none)

/-- The `unique_product_ids` local of `CreateOrder.mutate`
(`list(set(product_ids))`) restricted to its parseable keys — the key set the
fetch looks up. -/
def orderWanted (input : OrderInput) : List Nat :=
  validKeys input.product_ids.dedup

/-- The `products` local of `CreateOrder.mutate`:
`Product.objects.filter(id__in=unique_product_ids)`. -/
def orderFetched (s : Store) (input : OrderInput) : List Product :=
  s.products.filter (fun p => (orderWanted input).contains p.id)

/-- The `order` local of `CreateOrder.mutate`: fresh key, customer reference,
one association per fetched product, and the exact sum of the fetched
prices. -/
def orderValue (s : Store) (input : OrderInput) (customer : Customer) : Order :=
  ⟨s.nextId, customer.id, (orderFetched s input).map (·.id),
   ((orderFetched s input).map (·.price)).sum⟩

/-- The body of `CreateOrder.mutate`, before the transaction wrapper: empty
list check, customer lookup (both failure modes collapsed into
`customerNotFound`), deduplication via `list(set(product_ids))`, the fetch
`Product.objects.filter(id__in=unique_product_ids)` (which raises an uncaught
`ValidationError` on a malformed UUID among the ids), the count comparison
with the set-difference error naming the unmatched ids, and the insert plus
`order.products.set(products)`. -/
def createOrderSteps (s : Store) (input : OrderInput) : Store × Except OrderErr Order :=
  if input.product_ids.isEmpty then
    (s, .error .emptyProductList)
  else
    match customersGet s input.customer_id with
    | .found customer =>
      if input.product_ids.dedup.any RawId.isMalformed then
        (s, .error .invalidProductId)
      else if (orderFetched s input).length != (orderWanted input).length then
        (s, .error (.productsNotFound ((orderWanted input).filter
          (fun n => !((orderFetched s input).map (·.id)).contains n))))
      else
        ({ s with
            orders := s.orders ++ [orderValue s input customer]
            nextId := s.nextId + 1 }, .ok (orderValue s input customer))
    | _ => (s, .error (.customerNotFound input.customer_id))

/-- `CreateOrder.mutate` with its `@transaction.atomic` decorator: on any
exception every write of the body is rolled back, so the store reverts to its
initial state. -/
def createOrder (s : Store) (input : OrderInput) : Store × Except OrderErr Order :=
  match createOrderSteps s input with
  | (s2, .ok o) => (s2, .ok o)
  | (_, .error e) => (s, .error e)

/-- Well-formedness of the store inherited from the database schema: product
primary keys are unique. -/
def Store.WF (s : Store) : Prop := (s.products.map (·.id)).Nodup

/-- The phone pattern exactly as the specification words it: an optional
leading plus followed by 7 to 20 characters drawn from digits, spaces, and
hyphens. -/
def claimPhoneCharOrig (c : Char) : Bool := c.isDigit || c = ' ' || c = '-'

/-- The phone-format pattern in the words of the specification sentence:
"optional leading plus, 7 to 20 characters drawn from digits, spaces, and
hyphens". -/
def claimPhonePatternOrig (p : String) : Prop :=
  ∃ pre body, p.data = pre ++ body ∧ (pre = [] ∨ pre = ['+'])
    ∧ 7 ≤ body.length ∧ body.length ≤ 20 ∧ ∀ c ∈ body, claimPhoneCharOrig c = true

/-- The amended phone-format pattern: an optional leading plus, then 7 to 20
characters drawn from digits, whitespace (space, tab, LF, VT, FF, CR) and
hyphens, optionally followed by one trailing LF (which Python `$` tolerates). -/
def claimPhonePatternAmended (p : String) : Prop :=
  ∃ pre body extra, p.data = pre ++ body ++ extra ∧ (pre = [] ∨ pre = ['+'])
    ∧ 7 ≤ body.length ∧ body.length ≤ 20 ∧ (∀ c ∈ body, isPhoneClassChar c = true)
    ∧ (extra = [] ∨ extra = ['\n'])

/-- Empty store fixture. -/
def wEmpty : Store := ⟨[], [], [], 0⟩

/-- Store fixture: one customer (key 0) and two products A (key 1, 10.00) and
B (key 2, 5.00). -/
def wStore : Store :=
  ⟨[⟨0, "Alice", "alice@x.com", none⟩], [⟨1, "A", 1000, 5⟩, ⟨2, "B", 500, 3⟩], [], 10⟩

/-- Store fixture holding a customer whose stored email is not syntactically
valid (arbitrary pre-existing state). -/
def wBadStore : Store := ⟨[⟨0, "B", "bad email", none⟩], [], [], 10⟩

/-- Seven tab characters: accepted by the source regex, since tab matches
the class escape for whitespace. -/
def tabPhone : String := "\t\t\t\t\t\t\t"

/-- Batch fixture: the first entry is valid, the second has an invalid email,
the third repeats the first entry email inside the same batch. -/
def wBatch : List CustomerInput :=
  [⟨"A", "a@a.com", none⟩, ⟨"B", "bad", none⟩, ⟨"C", "a@a.com", none⟩]

/-- Batch fixture whose only entry has a syntactically invalid email. -/
def wBatchBad : List CustomerInput := [⟨"X", "notanemail", none⟩]

theorem emails_any_iff (s : Store) (e : String) :
    (s.customers.any (fun c => c.email == e)) = true ↔ e ∈ s.emails := by
  simp only [Store.emails, List.any_eq_true, List.mem_map, beq_iff_eq]

theorem emails_any_eq_false (s : Store) (d : CustomerInput) (h : d.email ∉ s.emails) :
    (s.customers.any (fun c => c.email == d.email)) = false := by
  rw [Bool.eq_false_iff]
  exact fun hc => h ((emails_any_iff s d.email).mp hc)

theorem validate_eq_dup (s : Store) (d : CustomerInput) (h : d.email ∈ s.emails) :
    validate_customer_data s d = some (.duplicateEmail d.email) := by
  unfold validate_customer_data
  rw [if_pos ((emails_any_iff s d.email).mpr h)]

theorem validate_eq_invalidEmail (s : Store) (d : CustomerInput)
    (h1 : d.email ∉ s.emails) (h2 : validEmail d.email = false) :
    validate_customer_data s d = some (.invalidEmail d.email) := by
  simp [validate_customer_data, emails_any_eq_false s d h1, h2]

theorem validate_eq_invalidPhone (s : Store) (d : CustomerInput) (p : String)
    (h1 : d.email ∉ s.emails) (h2 : validEmail d.email = true) (h3 : d.phone = some p)
    (h4 : p ≠ "") (h5 : validate_phone_format p = false) :
    validate_customer_data s d = some (.invalidPhone p) := by
  simp [validate_customer_data, emails_any_eq_false s d h1, h2, h3, h4, h5]

theorem validate_eq_none (s : Store) (d : CustomerInput)
    (h1 : d.email ∉ s.emails) (h2 : validEmail d.email = true)
    (h3 : ∀ p, d.phone = some p → p = "" ∨ validate_phone_format p = true) :
    validate_customer_data s d = none := by
  cases hp : d.phone with
  | none => simp [validate_customer_data, emails_any_eq_false s d h1, h2, hp]
  | some p =>
    rcases h3 p hp with h | h <;>
      simp [validate_customer_data, emails_any_eq_false s d h1, h2, hp, h]

theorem validate_none_not_mem (s : Store) (d : CustomerInput)
    (h : validate_customer_data s d = none) : d.email ∉ s.emails := by
  intro hmem
  rw [validate_eq_dup s d hmem] at h
  cases h

theorem validate_store_indep (s t : Store) (d : CustomerInput)
    (hs : d.email ∉ s.emails) (ht : d.email ∉ t.emails) :
    validate_customer_data s d = validate_customer_data t d := by
  unfold validate_customer_data
  rw [emails_any_eq_false s d hs, emails_any_eq_false t d ht]

theorem validate_isSome_mono (s t : Store) (d : CustomerInput)
    (hsub : ∀ e, e ∈ s.emails → e ∈ t.emails)
    (h : (validate_customer_data s d).isSome) : (validate_customer_data t d).isSome := by
  by_cases hm : d.email ∈ t.emails
  · rw [validate_eq_dup t d hm]; rfl
  · have hsm : d.email ∉ s.emails := fun hc => hm (hsub _ hc)
    rwa [validate_store_indep s t d hsm hm] at h

/-- C5: `validate_customer_data` runs its checks in the fixed order
duplicate-email, then email syntax, then phone format, returning the first
failing check and short-circuiting the rest; in particular a duplicate that is
also syntactically invalid (and has a bad phone) still gets the
duplicate-email message. -/
theorem validate_customer_order_spec (s : Store) (d : CustomerInput) :
    (d.email ∈ s.emails → validate_customer_data s d = some (.duplicateEmail d.email))
    ∧ (d.email ∉ s.emails → validEmail d.email = false →
        validate_customer_data s d = some (.invalidEmail d.email))
    ∧ (∀ p, d.email ∉ s.emails → validEmail d.email = true → d.phone = some p → p ≠ "" →
        validate_phone_format p = false → validate_customer_data s d = some (.invalidPhone p))
    ∧ (d.email ∉ s.emails → validEmail d.email = true →
        (∀ p, d.phone = some p → p = "" ∨ validate_phone_format p = true) →
        validate_customer_data s d = none) :=
  ⟨validate_eq_dup s d, validate_eq_invalidEmail s d,
   fun p h1 h2 h3 h4 h5 => validate_eq_invalidPhone s d p h1 h2 h3 h4 h5,
   validate_eq_none s d⟩

/-- Witness for C5: the input email equals a stored email and is also
syntactically invalid, and the phone is invalid too; the duplicate message
wins. -/
theorem validate_customer_order_witness :
    validEmail "bad email" = false
    ∧ validate_phone_format "xx" = false
    ∧ validate_customer_data wBadStore ⟨"N", "bad email", some "xx"⟩
        = some (.duplicateEmail "bad email") :=
  ⟨by decide, by decide,
   (validate_customer_order_spec wBadStore ⟨"N", "bad email", some "xx"⟩).1 (by decide)⟩

/-- C9: `createProduct` rejects any price ≤ 0 with the invalid-price error and
persists nothing, rejects a supplied negative stock with the invalid-stock
error, succeeds on any positive price (0.01 included), and an omitted stock
defaults to 0 in the persisted product. -/
theorem createProduct_spec (s : Store) (input : ProductInput) :
    (input.price ≤ 0 → createProduct s input = .error .invalidPrice)
    ∧ (∀ k, 0 < input.price → input.stock = some k → k < 0 →
        createProduct s input = .error .invalidStock)
    ∧ (0 < input.price → input.stock = none →
        createProduct s input = .ok
          ({ s with
              products := s.products ++ [⟨s.nextId, input.name, input.price, 0⟩]
              nextId := s.nextId + 1 }, ⟨s.nextId, input.name, input.price, 0⟩))
    ∧ (∀ k, 0 < input.price → input.stock = some k → 0 ≤ k →
        createProduct s input = .ok
          ({ s with
              products := s.products ++ [⟨s.nextId, input.name, input.price, k⟩]
              nextId := s.nextId + 1 }, ⟨s.nextId, input.name, input.price, k⟩)) := by
  refine ⟨fun h => ?_, fun k hp hs hk => ?_, fun hp hs => ?_, fun k hp hs hk => ?_⟩
  · simp [createProduct, h]
  · have hnp : ¬ input.price ≤ 0 := not_le.mpr hp
    simp [createProduct, hnp, hs, hk]
  · have hnp : ¬ input.price ≤ 0 := not_le.mpr hp
    simp [createProduct, hnp, hs]
  · have hnp : ¬ input.price ≤ 0 := not_le.mpr hp
    have hnk : ¬ k < 0 := not_lt.mpr hk
    simp [createProduct, hnp, hs, hnk]

/-- Witness for C9: price 0.01 (1 cent) with omitted stock succeeds with
stock 0; price 0 and price −5.00 fail; a negative stock fails. -/
theorem createProduct_witness :
    createProduct wEmpty ⟨"P", 1, none⟩ = .ok (⟨[], [⟨0, "P", 1, 0⟩], [], 1⟩, ⟨0, "P", 1, 0⟩)
    ∧ createProduct wEmpty ⟨"P", 0, none⟩ = .error .invalidPrice
    ∧ createProduct wEmpty ⟨"P", -500, none⟩ = .error .invalidPrice
    ∧ createProduct wEmpty ⟨"P", 1000, some (-1)⟩ = .error .invalidStock :=
  ⟨(createProduct_spec wEmpty ⟨"P", 1, none⟩).2.2.1 (by decide) rfl,
   (createProduct_spec wEmpty ⟨"P", 0, none⟩).1 (by decide),
   (createProduct_spec wEmpty ⟨"P", -500, none⟩).1 (by decide),
   (createProduct_spec wEmpty ⟨"P", 1000, some (-1)⟩).2.1 (-1) (by decide) rfl (by decide)⟩

/-- C10: `resolve_customer` returns null (ok none) for a well-formed id that
matches no row, but propagates an error for a malformed id, while
`createOrder` converts the same malformed-id failure into its not-found
error. -/
theorem resolve_customer_malformed_spec (s : Store) (raw : String) :
    (resolve_customer s (.malformed raw) = .error ())
    ∧ (∀ n, (∀ c ∈ s.customers, c.id ≠ n) → resolve_customer s (.valid n) = .ok none)
    ∧ (∀ pids, pids ≠ ([] : List RawId) →
        createOrder s ⟨.malformed raw, pids⟩ =
          (s, .error (.customerNotFound (.malformed raw)))) := by
  refine ⟨rfl, fun n h => ?_, fun pids hne => ?_⟩
  · have hf : s.customers.find? (fun c => c.id == n) = none :=
      List.find?_eq_none.mpr (fun c hc => by simpa [beq_iff_eq] using h c hc)
    simp [resolve_customer, customersGet, hf]
  · have h0 : pids.isEmpty = false := by
      cases pids with
      | nil => exact absurd rfl hne
      | cons a l => rfl
    simp [createOrder, createOrderSteps, h0, customersGet]

/-- Witness for C10: a malformed id errors in the query resolver but becomes
the not-found error in createOrder; a fresh well-formed id resolves to
null. -/
theorem resolve_customer_malformed_witness :
    resolve_customer wStore (.malformed "zz") = .error ()
    ∧ resolve_customer wStore (.valid 7) = .ok none
    ∧ createOrder wStore ⟨.malformed "zz", [.valid 1]⟩ =
        (wStore, .error (.customerNotFound (.malformed "zz"))) :=
  ⟨(resolve_customer_malformed_spec wStore "zz").1,
   (resolve_customer_malformed_spec wStore "zz").2.1 7 (by decide),
   (resolve_customer_malformed_spec wStore "zz").2.2 [.valid 1] (by decide)⟩

instance : IsTotal Customer nameLe := ⟨fun a b => le_total a.name b.name⟩

instance : IsTrans Customer nameLe := ⟨fun _ _ _ hab hbc => le_trans hab hbc⟩

/-- C8: `resolve_all_customers` returns every customer row exactly once (a
permutation of the table, whatever the insertion order was) and sorted by
name ascending; as a pure function it is deterministic on an unchanged
store. -/
theorem all_customers_sorted_spec (s : Store) :
    (resolve_all_customers s).Perm s.customers
    ∧ List.Sorted nameLe (resolve_all_customers s) :=
  ⟨List.perm_insertionSort nameLe s.customers, List.sorted_insertionSort nameLe s.customers⟩

theorem stripPlus_decomp (cs : List Char) :
    ∃ pre, (pre = [] ∨ pre = ['+']) ∧ cs = pre ++ stripPlus cs := by
  cases cs with
  | nil => exact ⟨[], Or.inl rfl, rfl⟩
  | cons c rest =>
    by_cases h : c = '+'
    · subst h
      exact ⟨['+'], Or.inr rfl, by simp [stripPlus]⟩
    · exact ⟨[], Or.inl rfl, by simp [stripPlus, h]⟩

theorem stripPlus_eq_self (cs : List Char) (h : cs.head? ≠ some '+') :
    stripPlus cs = cs := by
  cases cs with
  | nil => rfl
  | cons c rest =>
    have hc : c ≠ '+' := fun hc => h (by simp [hc])
    simp [stripPlus, hc]

theorem phone_class_plus : isPhoneClassChar '+' = false := by decide

theorem phone_regex_match_iff (p : String) :
    phone_regex_match p = true ↔ claimPhonePatternAmended p := by
  unfold phone_regex_match claimPhonePatternAmended
  simp only [Bool.or_eq_true, Bool.and_eq_true, decide_eq_true_eq, List.all_eq_true]
  constructor
  · intro h
    obtain ⟨pre, hpre, hdecomp⟩ := stripPlus_decomp p.data
    rcases h with ⟨⟨h7, h20⟩, hclass⟩ | ⟨⟨⟨hlast, h7⟩, h20⟩, hclass⟩
    · exact ⟨pre, stripPlus p.data, [], by simp [← hdecomp], hpre, h7, h20, hclass, Or.inl rfl⟩
    · have hne : stripPlus p.data ≠ [] := by
        intro hnil
        rw [hnil] at hlast
        cases hlast
      have hsplit : (stripPlus p.data).dropLast ++ ['\n'] = stripPlus p.data := by
        have hg : (stripPlus p.data).getLast hne = '\n' := by
          have := List.getLast?_eq_getLast (stripPlus p.data) hne
          rw [this] at hlast
          exact Option.some_injective _ hlast
        rw [← hg]
        exact List.dropLast_append_getLast hne
      refine ⟨pre, (stripPlus p.data).dropLast, ['\n'], ?_, hpre, ?_, ?_, hclass, Or.inr rfl⟩
      · rw [List.append_assoc, hsplit, ← hdecomp]
      · simpa [List.length_dropLast] using h7
      · simpa [List.length_dropLast] using h20
  · rintro ⟨pre, body, extra, hdata, hpre, h7, h20, hclass, hextra⟩
    have hbody : body ≠ [] := by
      intro hnil
      rw [hnil] at h7
      simp at h7
    have hhead : (body ++ extra).head? ≠ some '+' := by
      cases body with
      | nil => exact absurd rfl hbody
      | cons c r =>
        have hc : isPhoneClassChar c = true := hclass c (List.mem_cons_self c r)
        simp only [List.cons_append, List.head?_cons]
        intro hcc
        rw [Option.some_inj.mp hcc] at hc
        rw [phone_class_plus] at hc
        cases hc
    have hstrip : stripPlus p.data = body ++ extra := by
      rcases hpre with h | h
      · rw [hdata, h, List.nil_append]
        exact stripPlus_eq_self (body ++ extra) hhead
      · rw [hdata, h]
        simp [stripPlus]
    rcases hextra with h | h
    · subst h
      rw [hstrip, List.append_nil]
      exact Or.inl ⟨⟨h7, h20⟩, hclass⟩
    · subst h
      rw [hstrip]
      refine Or.inr ⟨⟨⟨List.getLast?_concat body, ?_⟩, ?_⟩, ?_⟩
      · simpa [List.dropLast_concat] using h7
      · simpa [List.dropLast_concat] using h20
      · simpa [List.dropLast_concat] using hclass

/-- Counterexample to C6 as stated: a phone of seven tab characters is
accepted by the code (no validation error: tab is whitespace, which the
regex class of the source admits), yet it does not consist of an optional
leading plus and 7–20 characters drawn from digits, spaces and hyphens, so
the claimed "fails iff not matching that pattern" is false here. -/
theorem phone_format_counterexample :
    validate_customer_data wEmpty ⟨"N", "n@x.com", some tabPhone⟩ = none
    ∧ ¬ claimPhonePatternOrig tabPhone := by
  constructor
  · decide
  · rintro ⟨pre, body, hdata, hpre, h7, h20, hclass⟩
    have hbody : body ≠ [] := by
      intro hnil
      rw [hnil] at h7
      simp at h7
    obtain ⟨c, hc⟩ := List.exists_mem_of_ne_nil body hbody
    have hcd : c ∈ tabPhone.data := by
      rw [hdata]
      exact List.mem_append.mpr (Or.inr hc)
    have hct : c = '\t' := by
      have hall : ∀ x ∈ tabPhone.data, x = '\t' := by decide
      exact hall c hcd
    have := hclass c hc
    rw [hct] at this
    exact absurd this (by decide)

/-- C6 amended: for a supplied non-empty phone, customer validation (with a
fresh, syntactically valid email) fails with the invalid-phone error iff the
phone does not consist of an optional leading plus followed by 7–20
characters drawn from digits, whitespace (space, tab, LF, VT, FF, CR) and
hyphens, optionally followed by one trailing newline. -/
theorem phone_format_spec_amended (s : Store) (d : CustomerInput) (p : String)
    (h1 : d.email ∉ s.emails) (h2 : validEmail d.email = true) (h3 : d.phone = some p)
    (h4 : p ≠ "") :
    validate_customer_data s d = some (.invalidPhone p) ↔ ¬ claimPhonePatternAmended p := by
  constructor
  · intro h hpat
    have hm : phone_regex_match p = true := (phone_regex_match_iff p).mpr hpat
    have hnone : validate_customer_data s d = none := by
      refine validate_eq_none s d h1 h2 (fun q hq => ?_)
      rw [h3] at hq
      cases hq
      exact Or.inr (by simp [validate_phone_format, hm])
    rw [hnone] at h
    cases h
  · intro hpat
    have hm : phone_regex_match p = false := by
      rw [Bool.eq_false_iff]
      exact fun hc => hpat ((phone_regex_match_iff p).mp hc)
    exact validate_eq_invalidPhone s d p h1 h2 h3 h4
      (by simp [validate_phone_format, hm, h4])

/-- Witness for the amended C6: the six-character phone "123-45" is supplied
with an otherwise valid input, and the iff is instantiated there. -/
theorem phone_format_spec_amended_witness :
    validate_customer_data wEmpty ⟨"N", "n@x.com", some "123-45"⟩
        = some (.invalidPhone "123-45")
      ↔ ¬ claimPhonePatternAmended "123-45" :=
  phone_format_spec_amended wEmpty ⟨"N", "n@x.com", some "123-45"⟩ "123-45"
    (by decide) (by decide) rfl (by decide)

theorem bulkGo_nil (s : Store) (i : Nat) : bulkGo s i [] = ⟨s, [], []⟩ := rfl

theorem bulkGo_cons_err (s : Store) (i : Nat) (d : CustomerInput) (rest : List CustomerInput)
    (e : VErr) (h : validate_customer_data s d = some e) :
    bulkGo s i (d :: rest) =
      ⟨(bulkGo s (i + 1) rest).store, (bulkGo s (i + 1) rest).customers,
       ⟨i, d.email, e⟩ :: (bulkGo s (i + 1) rest).errors⟩ := by
  simp [bulkGo, h]

theorem bulkGo_cons_ok (s : Store) (i : Nat) (d : CustomerInput) (rest : List CustomerInput)
    (h : validate_customer_data s d = none) :
    bulkGo s i (d :: rest) =
      ⟨(bulkGo (createCustomerRow s d).1 (i + 1) rest).store,
       (createCustomerRow s d).2 :: (bulkGo (createCustomerRow s d).1 (i + 1) rest).customers,
       (bulkGo (createCustomerRow s d).1 (i + 1) rest).errors⟩ := by
  simp [bulkGo, h]

theorem createCustomerRow_emails (s : Store) (d : CustomerInput) :
    (createCustomerRow s d).1.emails = s.emails ++ [d.email] := by
  simp [createCustomerRow, Store.emails]

theorem bulk_store_customers (s : Store) (i : Nat) (l : List CustomerInput) :
    (bulkGo s i l).store.customers = s.customers ++ (bulkGo s i l).customers := by
  induction l generalizing s i with
  | nil => simp [bulkGo_nil]
  | cons d rest ih =>
    cases h : validate_customer_data s d with
    | some e =>
      rw [bulkGo_cons_err s i d rest e h]
      exact ih s (i + 1)
    | none =>
      rw [bulkGo_cons_ok s i d rest h]
      have := ih (createCustomerRow s d).1 (i + 1)
      simp only [createCustomerRow] at this ⊢
      rw [this, List.append_assoc]
      rfl

theorem bulk_store_emails (s : Store) (i : Nat) (l : List CustomerInput) :
    (bulkGo s i l).store.emails = s.emails ++ (bulkGo s i l).customers.map (·.email) := by
  simp [Store.emails, bulk_store_customers s i l]

theorem bulk_count (s : Store) (i : Nat) (l : List CustomerInput) :
    (bulkGo s i l).customers.length + (bulkGo s i l).errors.length = l.length := by
  induction l generalizing s i with
  | nil => simp [bulkGo_nil]
  | cons d rest ih =>
    cases h : validate_customer_data s d with
    | some e =>
      rw [bulkGo_cons_err s i d rest e h]
      have := ih s (i + 1)
      simp only [List.length_cons]
      omega
    | none =>
      rw [bulkGo_cons_ok s i d rest h]
      have := ih (createCustomerRow s d).1 (i + 1)
      simp only [List.length_cons]
      omega

theorem bulk_triples_sublist (s : Store) (i : Nat) (l : List CustomerInput) :
    List.Sublist ((bulkGo s i l).customers.map (fun c => (c.name, c.email, c.phone)))
      (l.map (fun d => (d.name, d.email, d.phone))) := by
  induction l generalizing s i with
  | nil => simp [bulkGo_nil]
  | cons d rest ih =>
    cases h : validate_customer_data s d with
    | some e =>
      rw [bulkGo_cons_err s i d rest e h]
      exact (ih s (i + 1)).cons _
    | none =>
      rw [bulkGo_cons_ok s i d rest h]
      simp only [List.map_cons, createCustomerRow]
      exact (ih _ (i + 1)).cons₂ _

theorem bulk_err_facts (s : Store) (i : Nat) (l : List CustomerInput) :
    ∀ en ∈ (bulkGo s i l).errors,
      i ≤ en.index ∧ en.index < i + l.length
        ∧ (l.get? (en.index - i)).map (·.email) = some en.email := by
  induction l generalizing s i with
  | nil => simp [bulkGo_nil]
  | cons d rest ih =>
    have step : ∀ s2 : Store, ∀ en ∈ (bulkGo s2 (i + 1) rest).errors,
        i ≤ en.index ∧ en.index < i + (d :: rest).length
          ∧ ((d :: rest).get? (en.index - i)).map (·.email) = some en.email := by
      intro s2 en hen
      obtain ⟨hle, hlt, hget⟩ := ih s2 (i + 1) en hen
      refine ⟨by omega, by simp only [List.length_cons]; omega, ?_⟩
      have hk : en.index - i = (en.index - (i + 1)) + 1 := by omega
      rw [hk, List.get?_cons_succ]
      exact hget
    cases h : validate_customer_data s d with
    | some e =>
      rw [bulkGo_cons_err s i d rest e h]
      intro en hen
      rcases List.mem_cons.mp hen with hh | ht
      · subst hh
        refine ⟨le_rfl, by simp only [List.length_cons]; omega, ?_⟩
        simp
      · exact step s en ht
    | none =>
      rw [bulkGo_cons_ok s i d rest h]
      intro en hen
      exact step _ en hen

theorem bulk_err_sorted (s : Store) (i : Nat) (l : List CustomerInput) :
    List.Sorted (· < ·) ((bulkGo s i l).errors.map (·.index)) := by
  induction l generalizing s i with
  | nil => simp [bulkGo_nil]
  | cons d rest ih =>
    cases h : validate_customer_data s d with
    | some e =>
      rw [bulkGo_cons_err s i d rest e h]
      simp only [List.map_cons]
      rw [List.sorted_cons]
      refine ⟨?_, ih s (i + 1)⟩
      intro b hb
      obtain ⟨en, hen, hb2⟩ := List.mem_map.mp hb
      obtain ⟨hle, _, _⟩ := bulk_err_facts s (i + 1) rest en hen
      omega
    | none =>
      rw [bulkGo_cons_ok s i d rest h]
      exact ih _ (i + 1)

theorem bulk_append (s : Store) (i : Nat) (xs ys : List CustomerInput) :
    bulkGo s i (xs ++ ys) =
      ⟨(bulkGo (bulkGo s i xs).store (i + xs.length) ys).store,
       (bulkGo s i xs).customers ++ (bulkGo (bulkGo s i xs).store (i + xs.length) ys).customers,
       (bulkGo s i xs).errors ++ (bulkGo (bulkGo s i xs).store (i + xs.length) ys).errors⟩ := by
  induction xs generalizing s i with
  | nil => simp [bulkGo_nil]
  | cons d rest ih =>
    have harith : i + (d :: rest).length = (i + 1) + rest.length := by
      simp only [List.length_cons]
      omega
    cases h : validate_customer_data s d with
    | some e =>
      rw [List.cons_append, bulkGo_cons_err s i d (rest ++ ys) e h,
        bulkGo_cons_err s i d rest e h, ih s (i + 1), harith]
      simp
    | none =>
      rw [List.cons_append, bulkGo_cons_ok s i d (rest ++ ys) h,
        bulkGo_cons_ok s i d rest h, ih _ (i + 1), harith]
      simp

theorem bulk_created_fresh (s : Store) (i : Nat) (l : List CustomerInput) :
    ∀ c ∈ (bulkGo s i l).customers, c.email ∉ s.emails := by
  induction l generalizing s i with
  | nil => simp [bulkGo_nil]
  | cons d rest ih =>
    cases h : validate_customer_data s d with
    | some e =>
      rw [bulkGo_cons_err s i d rest e h]
      exact ih s (i + 1)
    | none =>
      rw [bulkGo_cons_ok s i d rest h]
      intro c hc
      rcases List.mem_cons.mp hc with hh | ht
      · subst hh
        exact validate_none_not_mem s d h
      · have hfresh := ih (createCustomerRow s d).1 (i + 1) c ht
        intro hmem
        apply hfresh
        rw [createCustomerRow_emails]
        exact List.mem_append.mpr (Or.inl hmem)

theorem bulk_created_emails_nodup (s : Store) (i : Nat) (l : List CustomerInput) :
    ((bulkGo s i l).customers.map (·.email)).Nodup := by
  induction l generalizing s i with
  | nil => simp [bulkGo_nil]
  | cons d rest ih =>
    cases h : validate_customer_data s d with
    | some e =>
      rw [bulkGo_cons_err s i d rest e h]
      exact ih s (i + 1)
    | none =>
      rw [bulkGo_cons_ok s i d rest h]
      simp only [List.map_cons]
      rw [List.nodup_cons]
      refine ⟨?_, ih _ (i + 1)⟩
      intro hmem
      obtain ⟨c, hc, hce⟩ := List.mem_map.mp hmem
      have hfresh := bulk_created_fresh (createCustomerRow s d).1 (i + 1) rest c hc
      apply hfresh
      rw [createCustomerRow_emails, hce]
      have : (createCustomerRow s d).2.email = d.email := rfl
      rw [this]
      exact List.mem_append.mpr (Or.inr (List.mem_cons_self _ _))

theorem bulk_preserves_nodup (s : Store) (i : Nat) (l : List CustomerInput)
    (h : s.emails.Nodup) : (bulkGo s i l).store.emails.Nodup := by
  rw [bulk_store_emails]
  rw [List.nodup_append]
  refine ⟨h, bulk_created_emails_nodup s i l, ?_⟩
  intro a ha hb
  obtain ⟨c, hc, hce⟩ := List.mem_map.mp hb
  exact bulk_created_fresh s i l c hc (hce ▸ ha)

theorem bulk_all_fail (s : Store) (i : Nat) (l : List CustomerInput)
    (h : ∀ d ∈ l, (validate_customer_data s d).isSome) :
    (bulkGo s i l).store = s ∧ (bulkGo s i l).customers = []
      ∧ (bulkGo s i l).errors.length = l.length := by
  induction l generalizing i with
  | nil => simp [bulkGo_nil]
  | cons d rest ih =>
    obtain ⟨e, he⟩ := Option.isSome_iff_exists.mp (h d (List.mem_cons_self d rest))
    rw [bulkGo_cons_err s i d rest e he]
    obtain ⟨h1, h2, h3⟩ := ih (i + 1) (fun a ha => h a (List.mem_cons_of_mem d ha))
    exact ⟨h1, h2, by simp [h3]⟩

theorem bulk_post_fail (s : Store) (i : Nat) (l : List CustomerInput) :
    ∀ d ∈ l, (validate_customer_data (bulkGo s i l).store d).isSome := by
  induction l generalizing s i with
  | nil => simp
  | cons d rest ih =>
    intro a ha
    cases h : validate_customer_data s d with
    | some e =>
      rw [bulkGo_cons_err s i d rest e h]
      rcases List.mem_cons.mp ha with hh | ht
      · subst hh
        refine validate_isSome_mono s _ a ?_ (by rw [h]; rfl)
        intro x hx
        rw [bulk_store_emails]
        exact List.mem_append.mpr (Or.inl hx)
      · exact ih s (i + 1) a ht
    | none =>
      rw [bulkGo_cons_ok s i d rest h]
      rcases List.mem_cons.mp ha with hh | ht
      · subst hh
        have hmem : a.email ∈ (bulkGo (createCustomerRow s a).1 (i + 1) rest).store.emails := by
          rw [bulk_store_emails]
          refine List.mem_append.mpr (Or.inl ?_)
          rw [createCustomerRow_emails]
          exact List.mem_append.mpr (Or.inr (List.mem_cons_self _ _))
        rw [validate_eq_dup _ a hmem]
        rfl
      · exact ih (createCustomerRow s d).1 (i + 1) a ht

/-- C3: `bulkCreateCustomers` never fails as a whole: created customers plus
error entries partition the batch (N−k created, k errors), the store gains
exactly the created rows appended in order, created customers keep the input
order (their field triples form a sublist of the inputs), and the error
entries appear in order of occurrence with the failing entry's index and
email. -/
theorem bulkCreateCustomers_partial_success_spec (s : Store) (input : List CustomerInput) :
    ((bulkCreateCustomers s input).customers.length
        + (bulkCreateCustomers s input).errors.length = input.length)
    ∧ (bulkCreateCustomers s input).store.customers
        = s.customers ++ (bulkCreateCustomers s input).customers
    ∧ List.Sublist
        ((bulkCreateCustomers s input).customers.map (fun c => (c.name, c.email, c.phone)))
        (input.map (fun d => (d.name, d.email, d.phone)))
    ∧ List.Sorted (· < ·) ((bulkCreateCustomers s input).errors.map (·.index))
    ∧ (∀ en ∈ (bulkCreateCustomers s input).errors,
        en.index < input.length ∧ (input.get? en.index).map (·.email) = some en.email) := by
  refine ⟨bulk_count s 0 input, bulk_store_customers s 0 input, bulk_triples_sublist s 0 input,
    bulk_err_sorted s 0 input, fun en hen => ?_⟩
  obtain ⟨_, hlt, hget⟩ := bulk_err_facts s 0 input en hen
  refine ⟨by omega, ?_⟩
  simpa using hget

/-- Witness for C3: on a 3-entry batch with one invalid email and one
in-batch duplicate, one customer is created, two errors are reported, the
store gains one row, and the error entry at index 1 names the email of
input 1. -/
theorem bulk_partial_witness :
    (bulkCreateCustomers wEmpty wBatch).customers.length = 1
    ∧ (bulkCreateCustomers wEmpty wBatch).errors.length = 2
    ∧ (bulkCreateCustomers wEmpty wBatch).store.customers.length = 1
    ∧ ((⟨1, "bad", .invalidEmail "bad"⟩ : ErrorEntry).index < wBatch.length
        ∧ (wBatch.get? (⟨1, "bad", .invalidEmail "bad"⟩ : ErrorEntry).index).map (·.email)
            = some (⟨1, "bad", .invalidEmail "bad"⟩ : ErrorEntry).email) := by
  refine ⟨by decide, by decide, by decide, ?_⟩
  exact (bulkCreateCustomers_partial_success_spec wEmpty wBatch).2.2.2.2 _ (by decide)

/-- C4: email uniqueness is enforced at write time: a duplicate is rejected
with the duplicate-email error before any write; single and bulk creation
preserve distinctness of stored emails; and inside one batch a later entry
whose email equals an earlier committed entry of the same batch is rejected
as a duplicate, because each duplicate check runs against the store updated
row-by-row. -/
theorem email_uniqueness_spec (s : Store) :
    (∀ d : CustomerInput, d.email ∈ s.emails →
        createCustomer s d = .error (.duplicateEmail d.email))
    ∧ (s.emails.Nodup → ∀ d r, createCustomer s d = .ok r → r.1.emails.Nodup)
    ∧ (s.emails.Nodup → ∀ input, (bulkCreateCustomers s input).store.emails.Nodup)
    ∧ (∀ pre d rest, (∃ c ∈ (bulkCreateCustomers s pre).customers, c.email = d.email) →
        ∃ en ∈ (bulkCreateCustomers s (pre ++ d :: rest)).errors,
          en.index = pre.length ∧ en.email = d.email
            ∧ en.error = .duplicateEmail d.email) := by
  refine ⟨fun d hd => ?_, fun hnd d r hok => ?_,
    fun hnd input => bulk_preserves_nodup s 0 input hnd,
    fun pre d rest ⟨c, hc, hce⟩ => ?_⟩
  · simp [createCustomer, validate_eq_dup s d hd]
  · unfold createCustomer at hok
    cases hv : validate_customer_data s d with
    | some e =>
      rw [hv] at hok
      cases hok
    | none =>
      rw [hv] at hok
      obtain rfl : ((createCustomerRow s d).1, (createCustomerRow s d).2,
          "Customer created successfully.") = r := by
        injection hok
      show (createCustomerRow s d).1.emails.Nodup
      rw [createCustomerRow_emails, List.nodup_append]
      refine ⟨hnd, List.nodup_singleton _, ?_⟩
      intro a ha hb
      rw [List.mem_singleton] at hb
      subst hb
      exact validate_none_not_mem s d hv ha
  · have hdup : d.email ∈ (bulkGo s 0 pre).store.emails := by
      rw [bulk_store_emails]
      exact List.mem_append.mpr (Or.inr (hce ▸ List.mem_map_of_mem _ hc))
    have hv := validate_eq_dup (bulkGo s 0 pre).store d hdup
    refine ⟨⟨pre.length, d.email, .duplicateEmail d.email⟩, ?_, rfl, rfl, rfl⟩
    show _ ∈ (bulkGo s 0 (pre ++ d :: rest)).errors
    rw [bulk_append s 0 pre (d :: rest)]
    refine List.mem_append.mpr (Or.inr ?_)
    rw [bulkGo_cons_err _ _ _ _ _ hv]
    simp only [Nat.zero_add]
    exact List.mem_cons_self _ _

/-- Witness for C4: a duplicate against the store is rejected up front; the
bulk run on the fixture batch keeps stored emails distinct; and the batch
entry at index 2, repeating the email committed at index 0, is rejected as a
duplicate. -/
theorem email_uniqueness_witness :
    createCustomer wBadStore ⟨"N", "bad email", none⟩ = .error (.duplicateEmail "bad email")
    ∧ (bulkCreateCustomers wEmpty wBatch).store.emails.Nodup
    ∧ ∃ en ∈ (bulkCreateCustomers wEmpty wBatch).errors,
        en.index = 2 ∧ en.email = "a@a.com" ∧ en.error = .duplicateEmail "a@a.com" := by
  refine ⟨(email_uniqueness_spec wBadStore).1 ⟨"N", "bad email", none⟩ (by decide),
    (email_uniqueness_spec wEmpty).2.2.1 (by decide) wBatch, ?_⟩
  exact (email_uniqueness_spec wEmpty).2.2.2 [⟨"A", "a@a.com", none⟩, ⟨"B", "bad", none⟩]
    ⟨"C", "a@a.com", none⟩ [] (by decide)

/-- C7 amended: re-running `bulkCreateCustomers` with the same batch after a
first run yields exactly N error entries, creates no customer and leaves the
store unchanged.  (The parenthetical of the original claim — that all N
second-run errors are duplicate errors — is refuted by
`bulk_rerun_counterexample`.) -/
theorem bulk_rerun_spec_amended (s : Store) (input : List CustomerInput) :
    (bulkCreateCustomers (bulkCreateCustomers s input).store input).errors.length = input.length
    ∧ (bulkCreateCustomers (bulkCreateCustomers s input).store input).customers = []
    ∧ (bulkCreateCustomers (bulkCreateCustomers s input).store input).store
        = (bulkCreateCustomers s input).store := by
  obtain ⟨h1, h2, h3⟩ :=
    bulk_all_fail (bulkGo s 0 input).store 0 input (bulk_post_fail s 0 input)
  exact ⟨h3, h2, h1⟩

/-- Counterexample to C7 as stated: re-running a batch whose only entry has a
syntactically invalid email reports that entry again as an invalid-email
error, which is not a duplicate error, refuting "all now duplicates". -/
theorem bulk_rerun_counterexample :
    (bulkCreateCustomers (bulkCreateCustomers wEmpty wBatchBad).store wBatchBad).errors
      = [⟨0, "notanemail", .invalidEmail "notanemail"⟩]
    ∧ ∀ e, VErr.invalidEmail "notanemail" ≠ VErr.duplicateEmail e :=
  ⟨by decide, fun e h => nomatch h⟩

theorem mem_orderWanted (input : OrderInput) (n : Nat) :
    n ∈ orderWanted input ↔ RawId.valid n ∈ input.product_ids := by
  unfold orderWanted validKeys
  rw [List.mem_filterMap]
  constructor
  · rintro ⟨r, hr, hm⟩
    cases r with
    | valid m =>
      simp only [Option.some.injEq] at hm
      subst hm
      exact List.mem_dedup.mp hr
    | malformed str => cases hm
  · intro h
    exact ⟨.valid n, List.mem_dedup.mpr h, rfl⟩

theorem orderWanted_nodup (input : OrderInput) : (orderWanted input).Nodup := by
  unfold orderWanted validKeys
  refine (List.nodup_dedup _).filterMap ?_
  intro a b c ha hb
  cases a with
  | valid m =>
    cases b with
    | valid k =>
      rw [Option.mem_def, Option.some.injEq] at ha hb
      rw [ha, hb]
    | malformed str =>
      rw [Option.mem_def] at hb
      cases hb
  | malformed str =>
    rw [Option.mem_def] at ha
    cases ha

theorem orderFetched_sublist_ids (s : Store) (input : OrderInput) :
    List.Sublist ((orderFetched s input).map (·.id)) (s.products.map (·.id)) :=
  (List.filter_sublist s.products).map _

theorem mem_orderFetched_ids (s : Store) (input : OrderInput) (n : Nat) :
    n ∈ (orderFetched s input).map (·.id)
      ↔ n ∈ orderWanted input ∧ n ∈ s.products.map (·.id) := by
  unfold orderFetched
  constructor
  · intro h
    obtain ⟨p, hp, hpn⟩ := List.mem_map.mp h
    obtain ⟨hp2, hp3⟩ := List.mem_filter.mp hp
    refine ⟨?_, List.mem_map.mpr ⟨p, hp2, hpn⟩⟩
    rw [← hpn]
    exact List.elem_iff.mp hp3
  · rintro ⟨h1, h2⟩
    obtain ⟨p, hp, hpn⟩ := List.mem_map.mp h2
    refine List.mem_map.mpr ⟨p, List.mem_filter.mpr ⟨hp, ?_⟩, hpn⟩
    rw [hpn]
    exact List.elem_iff.mpr h1

theorem orderFetched_ids_nodup (s : Store) (input : OrderInput) (hwf : Store.WF s) :
    ((orderFetched s input).map (·.id)).Nodup :=
  (orderFetched_sublist_ids s input).nodup hwf

theorem orderFetched_length (s : Store) (input : OrderInput) (hwf : Store.WF s) :
    (orderFetched s input).length
      = ((orderWanted input).filter
          (fun n => (s.products.map (·.id)).contains n)).length := by
  have h1 : ((orderFetched s input).map (·.id)).Nodup := orderFetched_ids_nodup s input hwf
  have h2 : ((orderWanted input).filter
      (fun n => (s.products.map (·.id)).contains n)).Nodup :=
    (orderWanted_nodup input).filter _
  calc (orderFetched s input).length
      = ((orderFetched s input).map (·.id)).length := (List.length_map _ _).symm
    _ = ((orderFetched s input).map (·.id)).toFinset.card :=
        (List.toFinset_card_of_nodup h1).symm
    _ = ((orderWanted input).filter
          (fun n => (s.products.map (·.id)).contains n)).toFinset.card := by
        congr 1
        ext n
        rw [List.mem_toFinset, List.mem_toFinset, mem_orderFetched_ids, List.mem_filter]
        simp [List.elem_iff]
    _ = ((orderWanted input).filter
          (fun n => (s.products.map (·.id)).contains n)).length :=
        List.toFinset_card_of_nodup h2

/-- The set difference the source reports (`all_ids - existing_ids`) coincides
with the requested unique ids that are missing from the product table. -/
theorem orderMissing_eq (s : Store) (input : OrderInput) :
    (orderWanted input).filter (fun n => !((orderFetched s input).map (·.id)).contains n)
      = (orderWanted input).filter (fun n => !(s.products.map (·.id)).contains n) := by
  refine List.filter_congr ?_
  intro n hn
  have : ((orderFetched s input).map (·.id)).contains n
      = (s.products.map (·.id)).contains n := by
    rw [Bool.eq_iff_iff, List.elem_iff, List.elem_iff, mem_orderFetched_ids]
    constructor
    · rintro ⟨_, h⟩
      exact h
    · intro h
      exact ⟨hn, h⟩
  rw [this]

theorem mem_orderMissing (s : Store) (input : OrderInput) (n : Nat) :
    n ∈ (orderWanted input).filter
        (fun n => !((orderFetched s input).map (·.id)).contains n)
      ↔ (RawId.valid n ∈ input.product_ids ∧ n ∉ s.products.map (·.id)) := by
  rw [orderMissing_eq, List.mem_filter, mem_orderWanted]
  simp [List.elem_iff]

theorem createOrder_error_store (s : Store) (input : OrderInput) (e : OrderErr)
    (h : (createOrder s input).2 = .error e) : (createOrder s input).1 = s := by
  unfold createOrder at h ⊢
  rcases heq : createOrderSteps s input with ⟨st, r⟩
  cases r with
  | ok o =>
    rw [heq] at h
    simp at h
  | error e2 => rfl

theorem createOrderSteps_success (s : Store) (input : OrderInput) (customer : Customer)
    (h0 : input.product_ids.isEmpty = false)
    (hcg : customersGet s input.customer_id = .found customer)
    (hmal : input.product_ids.dedup.any RawId.isMalformed = false)
    (hlen : ((orderFetched s input).length != (orderWanted input).length) = false) :
    createOrder s input =
      ({ s with
          orders := s.orders ++ [orderValue s input customer]
          nextId := s.nextId + 1 },
       .ok (orderValue s input customer)) := by
  simp [createOrder, createOrderSteps, h0, hcg, hmal, hlen]

theorem createOrder_ok_inv (s : Store) (input : OrderInput) (s2 : Store) (o : Order)
    (h : createOrder s input = (s2, .ok o)) :
    ∃ customer, input.product_ids.isEmpty = false
      ∧ customersGet s input.customer_id = .found customer
      ∧ input.product_ids.dedup.any RawId.isMalformed = false
      ∧ ((orderFetched s input).length != (orderWanted input).length) = false
      ∧ o = orderValue s input customer
      ∧ s2 = { s with
          orders := s.orders ++ [orderValue s input customer]
          nextId := s.nextId + 1 } := by
  unfold createOrder at h
  rcases heq : createOrderSteps s input with ⟨st, r⟩
  cases r with
  | error e2 =>
    rw [heq] at h
    simp at h
  | ok o2 =>
    rw [heq] at h
    simp only [Prod.mk.injEq, Except.ok.injEq] at h
    obtain ⟨hst, ho⟩ := h
    unfold createOrderSteps at heq
    split at heq
    · simp at heq
    · split at heq
      · split at heq
        · simp at heq
        · split at heq
          · simp at heq
          · rename_i hb0 x c hcg hmal hlen
            rw [Prod.mk.injEq, Except.ok.injEq] at heq
            obtain ⟨hrec, hov⟩ := heq
            refine ⟨c, ?_, hcg, ?_, ?_, (hov.trans ho).symm, (hrec.trans hst).symm⟩
            · simpa using hb0
            · simpa using hmal
            · simpa using hlen
      · simp at heq

theorem isEmpty_false_iff (l : List α) : l.isEmpty = false ↔ l ≠ [] := by
  cases l <;> simp

theorem any_malformed_false_iff (l : List RawId) :
    (l.dedup.any RawId.isMalformed = false) ↔ ∀ r ∈ l, r.isMalformed = false := by
  constructor
  · intro h r hr
    cases hmr : r.isMalformed with
    | false => rfl
    | true =>
      have hc : l.dedup.any RawId.isMalformed = true :=
        List.any_eq_true.mpr ⟨r, List.mem_dedup.mpr hr, hmr⟩
      rw [h] at hc
      cases hc
  · intro h
    rw [Bool.eq_false_iff]
    intro hc
    obtain ⟨r, hr, hm⟩ := List.any_eq_true.mp hc
    rw [h r (List.mem_dedup.mp hr)] at hm
    cases hm

theorem orderFetched_eq_claim_filter (s : Store) (input : OrderInput) :
    orderFetched s input
      = s.products.filter (fun p => decide (RawId.valid p.id ∈ input.product_ids)) := by
  unfold orderFetched
  refine List.filter_congr ?_
  intro p hp
  rw [Bool.eq_iff_iff, List.elem_iff, decide_eq_true_eq, mem_orderWanted]

theorem orderWanted_mem_eq (input input2 : OrderInput)
    (hmem : ∀ r, r ∈ input.product_ids ↔ r ∈ input2.product_ids) :
    ∀ n, n ∈ orderWanted input2 ↔ n ∈ orderWanted input := by
  intro n
  rw [mem_orderWanted, mem_orderWanted]
  exact (hmem (RawId.valid n)).symm

theorem orderFetched_congr (s : Store) (input input2 : OrderInput)
    (hmem : ∀ r, r ∈ input.product_ids ↔ r ∈ input2.product_ids) :
    orderFetched s input2 = orderFetched s input := by
  unfold orderFetched
  refine List.filter_congr ?_
  intro p hp
  rw [Bool.eq_iff_iff, List.elem_iff, List.elem_iff]
  exact orderWanted_mem_eq input input2 hmem p.id

/-- C1: whenever `createOrder` succeeds, the created order has exactly one
association per distinct existing requested product (no duplicates), and its
total is the exact sum of the distinct fetched products' prices; the
successful result is invariant under reordering or duplicating the requested
product-id list. -/
theorem createOrder_dedup_total_spec (s : Store) (input : OrderInput) :
    (∀ s2 o, Store.WF s → createOrder s input = (s2, .ok o) →
      o.productIds.Nodup
      ∧ (∀ n, n ∈ o.productIds
          ↔ (RawId.valid n ∈ input.product_ids ∧ n ∈ s.products.map (·.id)))
      ∧ o.totalAmount = ((s.products.filter
          (fun p => decide (RawId.valid p.id ∈ input.product_ids))).map (·.price)).sum)
    ∧ (∀ input2 s2 o, (∀ r, r ∈ input.product_ids ↔ r ∈ input2.product_ids) →
        input.customer_id = input2.customer_id → createOrder s input = (s2, .ok o) →
        createOrder s input2 = (s2, .ok o)) := by
  constructor
  · intro s2 o hwf hok
    obtain ⟨c, h0, hcg, hmal, hlen, ho, hs2⟩ := createOrder_ok_inv s input s2 o hok
    have hids : o.productIds = (orderFetched s input).map (·.id) := by rw [ho]; rfl
    refine ⟨?_, fun n => ?_, ?_⟩
    · rw [hids]
      exact orderFetched_ids_nodup s input hwf
    · rw [hids, mem_orderFetched_ids, mem_orderWanted]
    · have htot : o.totalAmount = ((orderFetched s input).map (·.price)).sum := by
        rw [ho]; rfl
      rw [htot, orderFetched_eq_claim_filter]
  · intro input2 s2 o hmem hcid hok
    obtain ⟨c, h0, hcg, hmal, hlen, ho, hs2⟩ := createOrder_ok_inv s input s2 o hok
    have hfe : orderFetched s input2 = orderFetched s input :=
      orderFetched_congr s input input2 hmem
    have hperm : (orderWanted input2).Perm (orderWanted input) :=
      (List.perm_ext_iff_of_nodup (orderWanted_nodup input2) (orderWanted_nodup input)).mpr
        (orderWanted_mem_eq input input2 hmem)
    have h02 : input2.product_ids.isEmpty = false := by
      rw [isEmpty_false_iff]
      obtain ⟨a, ha⟩ := List.exists_mem_of_ne_nil _ ((isEmpty_false_iff _).mp h0)
      exact List.ne_nil_of_mem ((hmem a).mp ha)
    have hcg2 : customersGet s input2.customer_id = .found c := hcid ▸ hcg
    have hmal2 : input2.product_ids.dedup.any RawId.isMalformed = false :=
      (any_malformed_false_iff _).mpr
        (fun r hr => (any_malformed_false_iff _).mp hmal r ((hmem r).mpr hr))
    have hlen2 : ((orderFetched s input2).length != (orderWanted input2).length) = false := by
      rw [hfe, hperm.length_eq]
      exact hlen
    have hov : orderValue s input2 c = orderValue s input c := by
      unfold orderValue
      rw [hfe]
    rw [createOrderSteps_success s input2 c h02 hcg2 hmal2 hlen2, hov, ← ho, hs2]
    rw [ho]

/-- Witness for C1: in a store with products A (key 1, 10.00) and B (key 2,
5.00), ordering `[A, A, B]` yields total 15.00 (1500 cents) and exactly the
two associations `[1, 2]`; the conjuncts of the claim theorem are
instantiated there. -/
theorem createOrder_dedup_total_witness :
    createOrder wStore ⟨.valid 0, [.valid 1, .valid 1, .valid 2]⟩
      = (⟨[⟨0, "Alice", "alice@x.com", none⟩], [⟨1, "A", 1000, 5⟩, ⟨2, "B", 500, 3⟩],
          [⟨10, 0, [1, 2], 1500⟩], 11⟩, .ok ⟨10, 0, [1, 2], 1500⟩)
    ∧ ((⟨10, 0, [1, 2], 1500⟩ : Order).productIds.Nodup
        ∧ (∀ n, n ∈ (⟨10, 0, [1, 2], 1500⟩ : Order).productIds
            ↔ (RawId.valid n ∈ [RawId.valid 1, RawId.valid 1, RawId.valid 2]
                ∧ n ∈ wStore.products.map (·.id)))
        ∧ (⟨10, 0, [1, 2], 1500⟩ : Order).totalAmount
            = ((wStore.products.filter (fun p =>
                decide (RawId.valid p.id
                  ∈ [RawId.valid 1, RawId.valid 1, RawId.valid 2]))).map (·.price)).sum) :=
  ⟨rfl, (createOrder_dedup_total_spec wStore ⟨.valid 0, [.valid 1, .valid 1, .valid 2]⟩).1
      _ _ (by unfold Store.WF; decide) rfl⟩

/-- C2: every failing `createOrder` leaves the store unchanged (no order row,
no association); a customer id matching no row — malformed ids included — is
reported as the customer-not-found error, and missing unique requested
product ids are reported as the products-not-found error naming exactly the
requested ids that match no product row. -/
theorem createOrder_atomic_error_spec (s : Store) (input : OrderInput) :
    (∀ e, (createOrder s input).2 = .error e → (createOrder s input).1 = s)
    ∧ (input.product_ids ≠ [] → (∀ c, customersGet s input.customer_id ≠ .found c) →
        createOrder s input = (s, .error (.customerNotFound input.customer_id)))
    ∧ (∀ customer, Store.WF s → input.product_ids ≠ [] →
        customersGet s input.customer_id = .found customer →
        (∀ r ∈ input.product_ids, r.isMalformed = false) →
        (∃ n, RawId.valid n ∈ input.product_ids ∧ n ∉ s.products.map (·.id)) →
        ∃ missing, createOrder s input = (s, .error (.productsNotFound missing))
          ∧ ∀ n, n ∈ missing ↔ (RawId.valid n ∈ input.product_ids
              ∧ n ∉ s.products.map (·.id))) := by
  refine ⟨createOrder_error_store s input, fun hne hnotfound => ?_,
    fun customer hwf hne hcg hnomal hmiss => ?_⟩
  · have h0 : input.product_ids.isEmpty = false := (isEmpty_false_iff _).mpr hne
    unfold createOrder createOrderSteps
    cases hcg : customersGet s input.customer_id with
    | found c => exact absurd hcg (hnotfound c)
    | doesNotExist => simp [h0]
    | validationError => simp [h0]
  · have h0 : input.product_ids.isEmpty = false := (isEmpty_false_iff _).mpr hne
    have hmal : input.product_ids.dedup.any RawId.isMalformed = false :=
      (any_malformed_false_iff _).mpr hnomal
    have hlenne : (orderFetched s input).length ≠ (orderWanted input).length := by
      rw [orderFetched_length s input hwf]
      obtain ⟨n, hn1, hn2⟩ := hmiss
      have hmm : n ∈ (orderWanted input).filter
          (fun n => !(s.products.map (·.id)).contains n) := by
        rw [List.mem_filter]
        refine ⟨(mem_orderWanted input n).mpr hn1, ?_⟩
        simp [List.elem_iff, hn2]
      have hsplit : ((orderWanted input).filter
            (fun n => (s.products.map (·.id)).contains n)).length
          + ((orderWanted input).filter
            (fun n => !(s.products.map (·.id)).contains n)).length
          = (orderWanted input).length := by
        have := List.length_eq_length_filter_add (l := orderWanted input)
          (fun n => (s.products.map (·.id)).contains n)
        simpa using this.symm
      have hpos : 0 < ((orderWanted input).filter
          (fun n => !(s.products.map (·.id)).contains n)).length :=
        List.length_pos.mpr (List.ne_nil_of_mem hmm)
      omega
    have hlen : ((orderFetched s input).length != (orderWanted input).length) = true :=
      bne_iff_ne.mpr hlenne
    refine ⟨(orderWanted input).filter
        (fun n => !((orderFetched s input).map (·.id)).contains n), ?_,
      fun n => mem_orderMissing s input n⟩
    simp [createOrder, createOrderSteps, h0, hcg, hmal, hlen]

/-- Witness for C2: in the two-product store, a missing product id rolls back
and is named in the products-not-found error; an unknown customer id gives
the customer-not-found error; the store is returned unchanged. -/
theorem createOrder_atomic_error_witness :
    (createOrder wStore ⟨.valid 0, [.valid 9]⟩).1 = wStore
    ∧ createOrder wStore ⟨.valid 5, [.valid 1]⟩
        = (wStore, .error (.customerNotFound (.valid 5)))
    ∧ ∃ missing, createOrder wStore ⟨.valid 0, [.valid 1, .valid 9]⟩
        = (wStore, .error (.productsNotFound missing))
        ∧ ∀ n, n ∈ missing ↔ (RawId.valid n ∈ [RawId.valid 1, RawId.valid 9]
            ∧ n ∉ wStore.products.map (·.id)) := by
  refine ⟨(createOrder_atomic_error_spec wStore ⟨.valid 0, [.valid 9]⟩).1
      (.productsNotFound [9]) rfl,
    (createOrder_atomic_error_spec wStore ⟨.valid 5, [.valid 1]⟩).2.1 (by decide)
      (fun c h => nomatch h),
    (createOrder_atomic_error_spec wStore ⟨.valid 0, [.valid 1, .valid 9]⟩).2.2
      ⟨0, "Alice", "alice@x.com", none⟩ (by unfold Store.WF; decide) (by decide) rfl
      (by decide) ⟨9, by decide, by decide⟩⟩
